import Mathlib

/-!
Verification of the multi-agent AI dispatch subsystem of Sniff-Recon
(`src/ai/multi_agent_ai.py`) against its natural-language specification.

The Python module is shallowly embedded below:
* packets are records carrying exactly the fields the module reads from a
  scapy packet (`len(pkt)`, the IP/TCP/UDP layer tests and the accessed
  header fields);
* Python dicts are association lists with first-occurrence lookup and
  update semantics (`dGet`, `dIncr`);
* floats: every float the module compares or stores is of the form
  `k * 1500 / 2^20` or a weight/score; these are represented exactly as
  rationals (division by `2^20` is exact in binary floating point, and
  `math.ceil(est / 5)` agrees with the rational ceiling for every
  realistic packet count, far below `2^53 / 1500`);
* network effects (HTTP calls, `random`) are inputs: each provider carries
  the canned outcome its `query` would produce, and the random draws of
  `_select_provider` (jitter values, the weighted-random pick) are
  explicit oracle arguments;
* `asyncio.gather` over the per-chunk tasks is modelled by the sequential
  interleaving: `_select_provider` (including its usage-counter update) is
  synchronous Python code and so runs atomically between `await` points.
-/

/-- Python `math.ceil(a / b)` for naturals with `b > 0`. -/
def ceilDivNat (a b : Nat) : Nat := (a + b - 1) / b

/-- Python dict lookup `d.get(k, dflt)`; association list with
first-occurrence semantics (keys stay unique under `dIncr`). -/
def dGet {κ β : Type} [DecidableEq κ] : List (κ × β) → κ → β → β
  | [], _, dflt => dflt
  | (k2, v) :: rest, k, dflt => if k2 = k then v else dGet rest k dflt

/-- Python `d[k] = d.get(k, 0) + 1` on the dict model. -/
def dIncr {κ : Type} [DecidableEq κ] : List (κ × Nat) → κ → List (κ × Nat)
  | [], k => [(k, 1)]
  | (k2, v) :: rest, k =>
      if k2 = k then (k2, v + 1) :: rest else (k2, v) :: dIncr rest k

/-- Python `list(set(xs))`: duplicate removal, keeping one copy of each
distinct element. CPython's set iteration order is unspecified, so the
order this fixes is as faithful as any; no claim observes it. -/
def dedupFirst {α : Type} [DecidableEq α] : List α → List α
  | [] => []
  | a :: as =>
      let d := dedupFirst as
      if a ∈ d then d else a :: d

/-- Python `"sep".join(xs)`. -/
def pyJoin (sep : String) : List String → String
  | [] => ""
  | [e] => e
  | e :: e2 :: es => e ++ sep ++ pyJoin sep (e2 :: es)

/-- Python `a or b` for an optional string `a` (both `None` and `""` are
falsy). -/
def pyOr (a : Option String) (b : String) : String :=
  match a with
  | none => b
  | some s => if s = "" then b else s

/-- The fields of a scapy `Packet` that `multi_agent_ai.py` reads:
`len(pkt)`, `IP in pkt`, `pkt[IP].src/dst/proto`, `TCP in pkt`,
`pkt[TCP].dport`, `pkt[TCP].flags & 0x02`, `UDP in pkt`, `pkt[UDP].dport`. -/
structure Packet where
  wireLen : Nat
  hasIP : Bool
  ipSrc : String
  ipDst : String
  ipProto : Nat
  hasTCP : Bool
  tcpDport : Nat
  tcpSyn : Bool
  hasUDP : Bool
  udpDport : Nat
deriving DecidableEq

/-- The `stats` dict built by `MultiAgentAI._extract_chunk_statistics`.
The nested dict `ports = {"tcp": [...], "udp": [...]}` is represented by
its two entries. -/
structure ChunkStats where
  total_packets : Nat := 0
  protocols : List (String × Nat) := []
  src_ips : List (String × Nat) := []
  dst_ips : List (String × Nat) := []
  tcp_ports : List Nat := []
  udp_ports : List Nat := []
  suspicious_patterns : List String := []
  packet_sizes : List Nat := []
deriving DecidableEq

/-- Body of the `for pkt in packets` loop of `_extract_chunk_statistics`,
threading the `stats` dict and the local `syn_counts` dict. -/
def statStep (acc : ChunkStats × List (String × Nat)) (pkt : Packet) :
    ChunkStats × List (String × Nat) :=
  let s0 := acc.1
  let syn := acc.2
  let s1 := { s0 with packet_sizes := s0.packet_sizes ++ [pkt.wireLen] }
  if pkt.hasIP then
    let s2 := { s1 with src_ips := dIncr s1.src_ips pkt.ipSrc,
                        dst_ips := dIncr s1.dst_ips pkt.ipDst }
    if pkt.ipProto = 6 then
      let s3 := { s2 with protocols := dIncr s2.protocols "TCP" }
      if pkt.hasTCP then
        let s4 := { s3 with tcp_ports := s3.tcp_ports ++ [pkt.tcpDport] }
        let synRes :=
          if pkt.tcpSyn then
            let syn2 := dIncr syn pkt.ipSrc
            let s5 :=
              if dGet syn2 pkt.ipSrc 0 > 50 then
                { s4 with suspicious_patterns := s4.suspicious_patterns ++
                    ["Potential SYN flood from " ++ pkt.ipSrc] }
              else s4
            (s5, syn2)
          else (s4, syn)
        let s6 := synRes.1
        let s7 :=
          if pkt.tcpDport = 0 ∨ pkt.tcpDport = 65535 ∨ pkt.tcpDport = 31337 ∨
              pkt.tcpDport = 6667 then
            { s6 with suspicious_patterns := s6.suspicious_patterns ++
                ["Suspicious TCP port " ++ toString pkt.tcpDport ++ " from " ++
                  pkt.ipSrc] }
          else s6
        (s7, synRes.2)
      else (s3, syn)
    else if pkt.ipProto = 17 then
      let s3 := { s2 with protocols := dIncr s2.protocols "UDP" }
      if pkt.hasUDP then
        let s4 := { s3 with udp_ports := s3.udp_ports ++ [pkt.udpDport] }
        let s5 :=
          if pkt.udpDport = 0 ∨ pkt.udpDport = 65535 ∨ pkt.udpDport = 31337 then
            { s4 with suspicious_patterns := s4.suspicious_patterns ++
                ["Suspicious UDP port " ++ toString pkt.udpDport ++ " from " ++
                  pkt.ipSrc] }
          else s4
        (s5, syn)
      else (s3, syn)
    else if pkt.ipProto = 1 then
      ({ s2 with protocols := dIncr s2.protocols "ICMP" }, syn)
    else
      ({ s2 with protocols := dIncr s2.protocols "Other" }, syn)
  else (s1, syn)

/-- `MultiAgentAI._extract_chunk_statistics` (lines 639-705): empty input
returns the empty dict; otherwise a linear pass over the packets followed
by deduplication of `suspicious_patterns`. -/
def _extract_chunk_statistics (packets : List Packet) : ChunkStats :=
  if packets.isEmpty then {}
  else
    let init : ChunkStats := { total_packets := packets.length }
    let res := packets.foldl statStep (init, [])
    { res.1 with suspicious_patterns := dedupFirst res.1.suspicious_patterns }

/-- A `PacketChunk`. `chunk_id` is `md5(f"chunk_{i}_{count}")[:8]` in the
source; since no claim observes hash values we keep the hash's preimage,
the pair `(i, count)`. -/
structure PacketChunk where
  chunk_id : Nat × Nat
  packets : List Packet
  summary : ChunkStats
  size_mb : ℚ
  packet_count : Nat
deriving DecidableEq

/-- `MultiAgentAI.chunk_packets` (lines 584-637), with
`chunk_size_mb = 5` and `max_packets_per_chunk = 5000` as set in
`__init__`. The `for i in range(chunk_count)` loop with its
`if not chunk_packets: continue` guard is a `filterMap` over the range;
`estimated_size_mb = len(packets) * 1500 / (1024 * 1024)` is exact, and
`math.ceil(estimated_size_mb / 5)` equals the natural ceiling division
`ceilDivNat (n * 1500) (5 * 1024 * 1024)`. -/
def chunk_packets (packets : List Packet) : List PacketChunk :=
  if packets.isEmpty then []
  else
    let total_packets := packets.length
    let estimated_size_mb : ℚ := ((total_packets : ℚ) * 1500) / (1024 * 1024)
    if estimated_size_mb ≤ 5 ∧ total_packets ≤ 5000 then
      [{ chunk_id := (0, total_packets),
         packets := packets,
         summary := _extract_chunk_statistics packets,
         size_mb := estimated_size_mb,
         packet_count := total_packets }]
    else
      let chunk_count :=
        max (ceilDivNat (total_packets * 1500) (5 * (1024 * 1024)))
            (ceilDivNat total_packets 5000)
      let packets_per_chunk := ceilDivNat total_packets chunk_count
      (List.range chunk_count).filterMap (fun i =>
        let start_idx := i * packets_per_chunk
        let end_idx := min ((i + 1) * packets_per_chunk) total_packets
        let cp := (packets.drop start_idx).take (end_idx - start_idx)
        if cp.isEmpty then none
        else some { chunk_id := (i, cp.length),
                    packets := cp,
                    summary := _extract_chunk_statistics cp,
                    size_mb := ((cp.length : ℚ) * 1500) / (1024 * 1024),
                    packet_count := cp.length })

/-! ### Arithmetic facts about `ceilDivNat` -/

theorem le_mul_ceilDivNat (a : Nat) {b : Nat} (hb : 0 < b) :
    a ≤ b * ceilDivNat a b := by
  unfold ceilDivNat
  have h1 := Nat.div_add_mod (a + b - 1) b
  have h2 := Nat.mod_lt (a + b - 1) hb
  omega

theorem ceilDivNat_le {a b c : Nat} (hb : 0 < b) (h : a ≤ c * b) :
    ceilDivNat a b ≤ c := by
  unfold ceilDivNat
  have h1 := Nat.div_add_mod (a + b - 1) b
  have h2 := Nat.mod_lt (a + b - 1) hb
  by_contra hlt
  push_neg at hlt
  have h3 : b * (c + 1) ≤ b * ((a + b - 1) / b) := Nat.mul_le_mul_left b hlt
  have h4 : b * (c + 1) = c * b + b := by ring
  omega

theorem ceilDivNat_pos {a b : Nat} (ha : 0 < a) (hb : 0 < b) :
    0 < ceilDivNat a b :=
  Nat.div_pos (by omega) hb

/-! ### Shape of the chunks produced by `chunk_packets` -/

/-- Length of a contiguous Python slice `packets[a:b]` with `b ≤ len`. -/
theorem slice_length {α : Type} (ps : List α) (a b : Nat) (hb : b ≤ ps.length) :
    ((ps.drop a).take (b - a)).length = b - a := by
  rw [List.length_take, List.length_drop]
  omega

/-- The record counts `chunk_packets` produces in its multi-chunk branch,
as a function of the input length alone. -/
def chunkLens (n : Nat) : List Nat :=
  let k := max (ceilDivNat (n * 1500) (5 * (1024 * 1024))) (ceilDivNat n 5000)
  let ppc := ceilDivNat n k
  (List.range k).filterMap (fun i =>
    let len := min ((i + 1) * ppc) n - i * ppc
    if len = 0 then none else some len)

theorem chunk_packets_counts (ps : List Packet) (hne : ps ≠ [])
    (hbig : ¬(((ps.length : ℚ) * 1500) / (1024 * 1024) ≤ 5 ∧ ps.length ≤ 5000)) :
    (chunk_packets ps).map (fun c => c.packet_count) = chunkLens ps.length := by
  have hne2 : ps.isEmpty = false := by
    simp [List.isEmpty_iff, hne]
  rw [chunk_packets, chunkLens]
  simp only [hne2, Bool.false_eq_true, if_false, if_neg hbig]
  rw [List.map_filterMap]
  apply List.filterMap_congr
  intro i _
  set P := ceilDivNat ps.length
      (max (ceilDivNat (ps.length * 1500) (5 * (1024 * 1024)))
           (ceilDivNat ps.length 5000)) with hP
  set cp := (ps.drop (i * P)).take (min ((i + 1) * P) ps.length - i * P) with hcp
  have hlen : cp.length = min ((i + 1) * P) ps.length - i * P := by
    rw [hcp]
    exact slice_length ps _ _ (Nat.min_le_right _ _)
  by_cases hc : cp.isEmpty
  · have h0 : min ((i + 1) * P) ps.length - i * P = 0 := by
      rw [← hlen]
      simp only [List.isEmpty_iff] at hc
      simp [hc]
    simp [hc, h0]
  · have h0 : ¬ (min ((i + 1) * P) ps.length - i * P = 0) := by
      rw [← hlen]
      simp only [List.isEmpty_iff] at hc
      simpa [List.length_eq_zero] using hc
    simp [hc, h0, hlen]

/-- Every chunk stores its own slice's statistics, its size estimate at
1500 bytes per record, and its record count. -/
theorem chunk_packets_elem (ps : List Packet) {c : PacketChunk}
    (hc : c ∈ chunk_packets ps) :
    c.size_mb = ((c.packet_count : ℚ) * 1500) / (1024 * 1024) ∧
    c.packet_count = c.packets.length ∧
    c.summary = _extract_chunk_statistics c.packets ∧
    (∀ p ∈ c.packets, p ∈ ps) ∧
    c.packets ≠ [] := by
  rw [chunk_packets] at hc
  by_cases h1 : ps.isEmpty
  · simp [h1] at hc
  · simp only [h1, Bool.false_eq_true, if_false] at hc
    by_cases h2 : ((ps.length : ℚ) * 1500) / (1024 * 1024) ≤ 5 ∧ ps.length ≤ 5000
    · rw [if_pos h2] at hc
      simp only [List.mem_singleton] at hc
      subst hc
      refine ⟨rfl, rfl, rfl, fun p hp => hp, ?_⟩
      simpa [List.isEmpty_iff] using h1
    · rw [if_neg h2] at hc
      rw [List.mem_filterMap] at hc
      obtain ⟨i, _, hf⟩ := hc
      by_cases hemp :
          ((ps.drop (i * ceilDivNat ps.length
              (max (ceilDivNat (ps.length * 1500) (5 * (1024 * 1024)))
                   (ceilDivNat ps.length 5000)))).take
            (min ((i + 1) * ceilDivNat ps.length
              (max (ceilDivNat (ps.length * 1500) (5 * (1024 * 1024)))
                   (ceilDivNat ps.length 5000))) ps.length -
              i * ceilDivNat ps.length
              (max (ceilDivNat (ps.length * 1500) (5 * (1024 * 1024)))
                   (ceilDivNat ps.length 5000)))).isEmpty
      · simp only [hemp, if_pos] at hf
        exact absurd hf (by simp)
      · simp only [hemp, Bool.false_eq_true, if_false, Option.some.injEq] at hf
        subst hf
        refine ⟨rfl, rfl, rfl, fun p hp => ?_, ?_⟩
        · exact List.mem_of_mem_drop (List.mem_of_mem_take hp)
        · simpa [List.isEmpty_iff] using hemp

/-- In the multi-chunk branch, `packets_per_chunk` stays at or below
both `5000` (from the record-ceiling term of `chunk_count`) and `3496`
(from the size-ceiling term: `n ≤ (5 * 2^20 / 1500) * k < 3496 * k`). -/
theorem packets_per_chunk_le (n : Nat) (hn : 0 < n) :
    ceilDivNat n (max (ceilDivNat (n * 1500) (5 * (1024 * 1024)))
        (ceilDivNat n 5000)) ≤ 5000 ∧
    ceilDivNat n (max (ceilDivNat (n * 1500) (5 * (1024 * 1024)))
        (ceilDivNat n 5000)) ≤ 3496 := by
  set k := max (ceilDivNat (n * 1500) (5 * (1024 * 1024))) (ceilDivNat n 5000)
      with hk
  have hk2 : ceilDivNat n 5000 ≤ k := le_max_right _ _
  have hk1 : ceilDivNat (n * 1500) (5 * (1024 * 1024)) ≤ k := le_max_left _ _
  have hkpos : 0 < k :=
    lt_of_lt_of_le (ceilDivNat_pos hn (by norm_num)) hk2
  constructor
  · apply ceilDivNat_le hkpos
    have h1 : n ≤ 5000 * ceilDivNat n 5000 := le_mul_ceilDivNat n (by norm_num)
    calc n ≤ 5000 * ceilDivNat n 5000 := h1
      _ ≤ 5000 * k := Nat.mul_le_mul_left 5000 hk2
  · apply ceilDivNat_le hkpos
    have h1 : n * 1500 ≤ 5 * (1024 * 1024) * ceilDivNat (n * 1500) (5 * (1024 * 1024)) :=
      le_mul_ceilDivNat (n * 1500) (by norm_num)
    have h2 : 5 * (1024 * 1024) * ceilDivNat (n * 1500) (5 * (1024 * 1024)) ≤
        5 * (1024 * 1024) * k := Nat.mul_le_mul_left _ hk1
    have h3 : n * 1500 ≤ 5242880 * k := by
      calc n * 1500 ≤ 5 * (1024 * 1024) * k := le_trans h1 h2
        _ = 5242880 * k := by norm_num
    have h4 : n * 1500 ≤ (3496 * k) * 1500 := by
      calc n * 1500 ≤ 5242880 * k := h3
        _ ≤ 5244000 * k := Nat.mul_le_mul_right k (by norm_num)
        _ = (3496 * k) * 1500 := by ring
    exact Nat.le_of_mul_le_mul_right h4 (by norm_num)

/-- C1 (amended): every chunk's record count is at most the record
ceiling `5000` (indeed at most `3496`), and its estimated size is below
the byte ceiling plus one record's estimate, `5 MB + 1500 / 2^20 MB`;
when the whole input fits under both ceilings, exactly one chunk holding
all records is produced. -/
theorem chunk_packets_ceilings (ps : List Packet) :
    (∀ c ∈ chunk_packets ps,
        c.packet_count ≤ 5000 ∧
        c.size_mb < 5 + 1500 / (1024 * 1024)) ∧
    (((ps.length : ℚ) * 1500) / (1024 * 1024) ≤ 5 ∧ ps.length ≤ 5000 →
      ps ≠ [] →
      ∃ c, chunk_packets ps = [c] ∧ c.packets = ps ∧
        c.packet_count = ps.length) := by
  constructor
  · intro c hc
    have hcount : c.packet_count ≤ 3496 ∧ c.packet_count ≤ 5000 := by
      rw [chunk_packets] at hc
      by_cases h1 : ps.isEmpty
      · simp [h1] at hc
      · have hn : 0 < ps.length := by
          cases ps
          · simp at h1
          · simp
        simp only [h1, Bool.false_eq_true, if_false] at hc
        by_cases h2 : ((ps.length : ℚ) * 1500) / (1024 * 1024) ≤ 5 ∧
            ps.length ≤ 5000
        · rw [if_pos h2] at hc
          simp only [List.mem_singleton] at hc
          subst hc
          refine ⟨?_, h2.2⟩
          have h5 : (ps.length : ℚ) * 1500 ≤ 5 * (1024 * 1024) := by
            have := h2.1
            rw [div_le_iff₀ (by norm_num : (0:ℚ) < 1024 * 1024)] at this
            linarith
          have h6 : (ps.length : ℚ) ≤ 3496 := by linarith
          exact_mod_cast h6
        · rw [if_neg h2] at hc
          rw [List.mem_filterMap] at hc
          obtain ⟨i, _, hf⟩ := hc
          set P := ceilDivNat ps.length
              (max (ceilDivNat (ps.length * 1500) (5 * (1024 * 1024)))
                   (ceilDivNat ps.length 5000)) with hP
          set cp := (ps.drop (i * P)).take
              (min ((i + 1) * P) ps.length - i * P) with hcp
          by_cases hemp : cp.isEmpty
          · simp only [hemp, if_pos] at hf
            exact absurd hf (by simp)
          · simp only [hemp, Bool.false_eq_true, if_false,
              Option.some.injEq] at hf
            subst hf
            have hle : cp.length ≤ P := by
              have := slice_length ps (i * P) (min ((i + 1) * P) ps.length)
                (Nat.min_le_right _ _)
              rw [← hcp] at this
              have e1 : (i + 1) * P = i * P + P := by ring
              omega
            have := packets_per_chunk_le ps.length hn
            rw [← hP] at this
            exact ⟨le_trans hle this.2, le_trans hle this.1⟩
    obtain ⟨h3496, h5000⟩ := hcount
    refine ⟨h5000, ?_⟩
    have hsz := (chunk_packets_elem ps hc).1
    rw [hsz]
    have hq : (c.packet_count : ℚ) ≤ 3496 := by exact_mod_cast h3496
    calc ((c.packet_count : ℚ) * 1500) / (1024 * 1024)
        ≤ ((3496 : ℚ) * 1500) / (1024 * 1024) := by
          apply div_le_div_of_nonneg_right ?_ (by norm_num)
          · linarith
      _ < 5 + 1500 / (1024 * 1024) := by norm_num
  · intro h2 hne
    have hne2 : ps.isEmpty = false := by simp [List.isEmpty_iff, hne]
    rw [chunk_packets]
    simp only [hne2, Bool.false_eq_true, if_false, if_pos h2]
    exact ⟨_, rfl, rfl, rfl⟩

/-- A concrete TCP/IP packet used in concrete evaluations. -/
def tcpPkt : Packet :=
  { wireLen := 60, hasIP := true, ipSrc := "10.0.0.1", ipDst := "10.0.0.2",
    ipProto := 6, hasTCP := true, tcpDport := 80, tcpSyn := false,
    hasUDP := false, udpDport := 0 }

/-- A concrete packet without an IP layer. -/
def nonIpPkt : Packet :=
  { wireLen := 60, hasIP := false, ipSrc := "", ipDst := "", ipProto := 0,
    hasTCP := false, tcpDport := 0, tcpSyn := false, hasUDP := false,
    udpDport := 0 }

/-- C1 counterexample: 13,981 packets do not fit the ceilings
(estimated 20 MB), so the claim requires every chunk to stay within both
ceilings; but `chunk_count = max(4, 3) = 4` gives `packets_per_chunk =
3496`, and a 3496-record chunk has an estimated size of 5,244,000 bytes,
exceeding the 5 MB = 5,242,880-byte ceiling. -/
theorem chunk_packets_ceilings_cex :
    ¬ ((((List.replicate 13981 tcpPkt).length : ℚ) * 1500) / (1024 * 1024) ≤ 5 ∧
        (List.replicate 13981 tcpPkt).length ≤ 5000) ∧
    ¬ (∀ c ∈ chunk_packets (List.replicate 13981 tcpPkt),
          c.packet_count ≤ 5000 ∧ c.size_mb ≤ 5) := by
  constructor
  · rintro ⟨-, h⟩
    rw [List.length_replicate] at h
    omega
  · intro hall
    have hmap := chunk_packets_counts (List.replicate 13981 tcpPkt)
      (by
        intro h
        have h2 := congrArg List.length h
        rw [List.length_replicate, List.length_nil] at h2
        omega)
      (by rintro ⟨-, h⟩; rw [List.length_replicate] at h; omega)
    rw [List.length_replicate] at hmap
    have hlens : chunkLens 13981 = [3496, 3496, 3496, 3493] := by decide
    rw [hlens] at hmap
    have hmem : (3496 : Nat) ∈
        (chunk_packets (List.replicate 13981 tcpPkt)).map
          (fun c => c.packet_count) := by
      rw [hmap]; simp
    rw [List.mem_map] at hmem
    obtain ⟨c, hc, hcount⟩ := hmem
    have hsz := (chunk_packets_elem _ hc).1
    have hle := (hall c hc).2
    rw [hsz, hcount] at hle
    norm_num at hle

/-- Witness for `chunk_packets_ceilings` at a one-packet input. -/
theorem chunk_packets_ceilings_witness :
    (∀ c ∈ chunk_packets [tcpPkt],
        c.packet_count ≤ 5000 ∧
        c.size_mb < 5 + 1500 / (1024 * 1024)) ∧
    ((([tcpPkt].length : ℚ) * 1500) / (1024 * 1024) ≤ 5 ∧ [tcpPkt].length ≤ 5000 →
      [tcpPkt] ≠ [] →
      ∃ c, chunk_packets [tcpPkt] = [c] ∧ c.packets = [tcpPkt] ∧
        c.packet_count = [tcpPkt].length) :=
  chunk_packets_ceilings [tcpPkt]

/-! ### Concatenation of the chunk slices (claim C2) -/

theorem slice_shift {α : Type} (ps : List α) (ppc i : Nat) :
    (ps.drop ((i + 1) * ppc)).take
        (min ((i + 1 + 1) * ppc) ps.length - (i + 1) * ppc) =
      ((ps.drop ppc).drop (i * ppc)).take
        (min ((i + 1) * ppc) (ps.drop ppc).length - i * ppc) := by
  rw [List.drop_drop, List.length_drop]
  have e0 : ppc + i * ppc = (i + 1) * ppc := by ring
  rw [e0]
  congr 1
  have e1 : (i + 1) * ppc = i * ppc + ppc := by ring
  have e2 : (i + 1 + 1) * ppc = i * ppc + ppc + ppc := by ring
  omega

theorem join_slices {α : Type} (ppc : Nat) :
    ∀ (k : Nat) (ps : List α), ps.length ≤ k * ppc →
      ((List.range k).map (fun i =>
          (ps.drop (i * ppc)).take
            (min ((i + 1) * ppc) ps.length - i * ppc))).flatten = ps := by
  intro k
  induction k with
  | zero =>
      intro ps h
      have : ps = [] := by
        rw [← List.length_eq_zero]
        omega
      subst this
      rfl
  | succ k ih =>
      intro ps h
      rw [List.range_succ_eq_map]
      simp only [List.map_cons, List.map_map, List.flatten_cons]
      have h0 : (ps.drop (0 * ppc)).take
          (min ((0 + 1) * ppc) ps.length - 0 * ppc) = ps.take ppc := by
        simp only [Nat.zero_mul, List.drop_zero, Nat.sub_zero, Nat.zero_add,
          Nat.one_mul]
        rcases Nat.le_total ppc ps.length with hle | hle
        · rw [Nat.min_eq_left hle]
        · rw [Nat.min_eq_right hle, List.take_length,
            List.take_of_length_le hle]
      rw [h0]
      have h1 : (List.range k).map
            ((fun i => (ps.drop (i * ppc)).take
              (min ((i + 1) * ppc) ps.length - i * ppc)) ∘ Nat.succ) =
          (List.range k).map (fun i =>
            ((ps.drop ppc).drop (i * ppc)).take
              (min ((i + 1) * ppc) (ps.drop ppc).length - i * ppc)) := by
        apply List.map_congr_left
        intro i _
        show (ps.drop ((i + 1) * ppc)).take
            (min ((i + 1 + 1) * ppc) ps.length - (i + 1) * ppc) = _
        exact slice_shift ps ppc i
      rw [h1, ih (ps.drop ppc) (by
        rw [List.length_drop]
        have e : (k + 1) * ppc = k * ppc + ppc := by ring
        omega)]
      exact List.take_append_drop ppc ps

theorem flatten_filterMap_isEmpty {ι α : Type} (l : List ι) (f : ι → List α) :
    (l.filterMap (fun i => if (f i).isEmpty then none else some (f i))).flatten
      = (l.map f).flatten := by
  induction l with
  | nil => rfl
  | cons a l ih =>
      by_cases h : (f a).isEmpty
      · have h2 : f a = [] := by simpa [List.isEmpty_iff] using h
        simp [h, h2, ih]
      · simp [h, ih]

/-- C2 (confirmed): the chunks' packet lists concatenate, in order, back
to the input; no chunk has zero packets; empty input gives no chunks. -/
theorem chunk_packets_concat (ps : List Packet) :
    ((chunk_packets ps).map (fun c => c.packets)).flatten = ps ∧
    (∀ c ∈ chunk_packets ps, c.packet_count ≠ 0) ∧
    (ps = [] → chunk_packets ps = []) := by
  refine ⟨?_, ?_, ?_⟩
  · rw [chunk_packets]
    by_cases h1 : ps.isEmpty
    · simp only [h1, if_pos]
      simp only [List.isEmpty_iff] at h1
      simp [h1]
    · simp only [h1, Bool.false_eq_true, if_false]
      by_cases h2 : ((ps.length : ℚ) * 1500) / (1024 * 1024) ≤ 5 ∧
          ps.length ≤ 5000
      · rw [if_pos h2]
        simp
      · rw [if_neg h2]
        have hn : 0 < ps.length := by
          cases ps
          · simp at h1
          · simp
        set K := max (ceilDivNat (ps.length * 1500) (5 * (1024 * 1024)))
            (ceilDivNat ps.length 5000) with hK
        set P := ceilDivNat ps.length K with hP
        have hKpos : 0 < K :=
          lt_of_lt_of_le (ceilDivNat_pos hn (by norm_num)) (le_max_right _ _)
        rw [List.map_filterMap]
        trans ((List.range K).filterMap (fun i =>
            if ((ps.drop (i * P)).take
                (min ((i + 1) * P) ps.length - i * P)).isEmpty then none
            else some ((ps.drop (i * P)).take
                (min ((i + 1) * P) ps.length - i * P)))).flatten
        · apply congrArg List.flatten
          apply List.filterMap_congr
          intro i _
          by_cases hemp : ((ps.drop (i * P)).take
              (min ((i + 1) * P) ps.length - i * P)).isEmpty
          · simp [hemp]
          · simp [hemp]
        · rw [flatten_filterMap_isEmpty (List.range K)
            (fun i => (ps.drop (i * P)).take
              (min ((i + 1) * P) ps.length - i * P))]
          apply join_slices P K ps
          exact le_mul_ceilDivNat ps.length hKpos
  · intro c hc
    have h := chunk_packets_elem ps hc
    rw [h.2.1]
    simpa using h.2.2.2.2
  · intro h
    subst h
    rfl

/-- Witness for `chunk_packets_concat` at a one-packet input. -/
theorem chunk_packets_concat_witness :
    ((chunk_packets [tcpPkt]).map (fun c => c.packets)).flatten = [tcpPkt] ∧
    (∀ c ∈ chunk_packets [tcpPkt], c.packet_count ≠ 0) ∧
    ([tcpPkt] = [] → chunk_packets [tcpPkt] = []) :=
  chunk_packets_concat [tcpPkt]

/-! ### The protocol tally of a chunk digest (claim C6) -/

/-- Sum of the counters of a tally dict. -/
def sumVals (d : List (String × Nat)) : Nat := (d.map Prod.snd).sum

theorem sumVals_dIncr (d : List (String × Nat)) (k : String) :
    sumVals (dIncr d k) = sumVals d + 1 := by
  induction d with
  | nil => rfl
  | cons e d ih =>
      obtain ⟨k2, v⟩ := e
      rw [dIncr]
      by_cases h : k2 = k
      · simp only [h, if_true, eq_self_iff_true, sumVals, List.map_cons,
          List.sum_cons]
        omega
      · simp only [h, if_false, sumVals, List.map_cons, List.sum_cons] at ih ⊢
        omega

theorem protoSum_statStep (acc : ChunkStats × List (String × Nat))
    (p : Packet) :
    sumVals ((statStep acc p).1.protocols)
      = sumVals acc.1.protocols + (if p.hasIP then 1 else 0) := by
  obtain ⟨s, syn⟩ := acc
  rw [statStep]
  cases hip : p.hasIP
  · simp
  · simp only [if_pos]
    split_ifs <;> simp [sumVals_dIncr]

theorem protoSum_foldl (ps : List Packet) :
    ∀ (s : ChunkStats) (syn : List (String × Nat)),
      sumVals ((ps.foldl statStep (s, syn)).1.protocols)
        = sumVals s.protocols + ps.countP (fun p => p.hasIP) := by
  induction ps with
  | nil => intro s syn; simp
  | cons p ps ih =>
      intro s syn
      rw [List.foldl_cons, List.countP_cons]
      have h2 := ih (statStep (s, syn) p).1 (statStep (s, syn) p).2
      rw [Prod.mk.eta] at h2
      rw [h2, protoSum_statStep (s, syn) p]
      simp only []
      split_ifs <;> omega

theorem protoSum_extract (ps : List Packet) :
    sumVals (_extract_chunk_statistics ps).protocols
      = ps.countP (fun p => p.hasIP) := by
  rw [_extract_chunk_statistics]
  by_cases h : ps.isEmpty
  · have h2 : ps = [] := by simpa [List.isEmpty_iff] using h
    subst h2
    rfl
  · simp only [h, Bool.false_eq_true, if_false]
    rw [protoSum_foldl]
    simp [sumVals]

/-- C6 (amended): any 12,000-record input is split into exactly 4 chunks
of 3,000 records each (the size ceiling dominates:
`ceil(12000 * 1500 / (5 * 2^20)) = 4 > ceil(12000 / 5000) = 3`), and each
chunk's protocol tally sums to the number of its records that carry an IP
layer (hence to its record count exactly when all records do). -/
theorem chunk_packets_12000 (ps : List Packet) (h : ps.length = 12000) :
    (chunk_packets ps).map (fun c => c.packet_count)
        = [3000, 3000, 3000, 3000] ∧
    ∀ c ∈ chunk_packets ps,
      sumVals c.summary.protocols = c.packets.countP (fun p => p.hasIP) := by
  constructor
  · have hmap := chunk_packets_counts ps
      (by
        intro hn
        subst hn
        simp at h)
      (by rintro ⟨-, h2⟩; omega)
    rw [hmap, h]
    decide
  · intro c hc
    rw [(chunk_packets_elem ps hc).2.2.1]
    exact protoSum_extract c.packets

/-- Witness for `chunk_packets_12000`. -/
theorem chunk_packets_12000_witness :
    (List.replicate 12000 tcpPkt).length = 12000 ∧
    ((chunk_packets (List.replicate 12000 tcpPkt)).map
        (fun c => c.packet_count) = [3000, 3000, 3000, 3000] ∧
    ∀ c ∈ chunk_packets (List.replicate 12000 tcpPkt),
      sumVals c.summary.protocols = c.packets.countP (fun p => p.hasIP)) :=
  ⟨List.length_replicate 12000 tcpPkt,
   chunk_packets_12000 (List.replicate 12000 tcpPkt)
     (List.length_replicate 12000 tcpPkt)⟩

/-- C6 counterexample: 12,000 records are split into 4 chunks of 3,000,
not 3 chunks of 4,000 (`chunk_count = max(4, 3) = 4`); and for records
without an IP layer the protocol tally sums to 0, not to the record
count. -/
theorem chunk_packets_12000_cex :
    (chunk_packets (List.replicate 12000 nonIpPkt)).map
        (fun c => c.packet_count) ≠ [4000, 4000, 4000] ∧
    ¬ (∀ c ∈ chunk_packets (List.replicate 12000 nonIpPkt),
        sumVals c.summary.protocols = c.packet_count) := by
  have hmap := chunk_packets_counts (List.replicate 12000 nonIpPkt)
    (by
      intro h
      have h2 := congrArg List.length h
      rw [List.length_replicate, List.length_nil] at h2
      omega)
    (by rintro ⟨-, h⟩; rw [List.length_replicate] at h; omega)
  rw [List.length_replicate] at hmap
  have hlens : chunkLens 12000 = [3000, 3000, 3000, 3000] := by decide
  rw [hlens] at hmap
  constructor
  · rw [hmap]
    decide
  · intro hall
    have hmem : (3000 : Nat) ∈
        (chunk_packets (List.replicate 12000 nonIpPkt)).map
          (fun c => c.packet_count) := by
      rw [hmap]; simp
    rw [List.mem_map] at hmem
    obtain ⟨c, hc, hcount⟩ := hmem
    have helem := chunk_packets_elem _ hc
    have hz : c.packets.countP (fun p => p.hasIP) = 0 := by
      rw [List.countP_eq_zero]
      intro p hp
      have := List.eq_of_mem_replicate (helem.2.2.2.1 p hp)
      subst this
      simp [nonIpPkt]
    have := hall c hc
    rw [helem.2.2.1, protoSum_extract, hz, hcount] at this
    omega

/-! ### Providers, the agent state and `_select_provider` -/

/-- The canned network outcome a provider's `query` coroutine would
produce for this call; abstracts the HTTP transport. -/
structure ProviderOutcome where
  success : Bool
  response : String
  error : Option String
  tokens_used : Option Nat
  response_time : Option ℚ
deriving DecidableEq

/-- An active provider: its `name` property together with the outcome of
its next `query` call. -/
structure Provider where
  name : String
  outcome : ProviderOutcome
deriving DecidableEq

instance : Inhabited Provider :=
  ⟨{ name := "", outcome :=
      { success := false, response := "", error := none,
        tokens_used := none, response_time := none } }⟩

/-- The `AIResponse` dataclass (lines 33-42). `chunk_id` keeps the model
of the chunk identifier. -/
structure AIResponse where
  success : Bool
  response : String
  error : Option String := none
  provider : Option String := none
  tokens_used : Option Nat := none
  response_time : Option ℚ := none
  chunk_id : Option (Nat × Nat) := none
deriving DecidableEq

/-- A provider's `query`: every concrete provider class (Groq, OpenAI,
Anthropic, Google Gemini) returns an `AIResponse` with
`provider=self.name` on all of its branches; the remaining fields come
from the network outcome. The prompt and context strings are consumed
only by the HTTP call that the outcome abstracts. -/
def Provider.query (p : Provider) : AIResponse :=
  { success := p.outcome.success,
    response := p.outcome.response,
    error := p.outcome.error,
    provider := some p.name,
    tokens_used := p.outcome.tokens_used,
    response_time := p.outcome.response_time,
    chunk_id := none }

/-- The mutable `MultiAgentAI` state the claims touch: the active
provider list, the usage-count dict, the weighted-balancing flag and the
configured weight dict. -/
structure AgentState where
  active_providers : List Provider
  provider_usage_count : List (String × Nat)
  use_weighted_balancing : Bool
  provider_weights : List (String × ℚ)
deriving DecidableEq

/-- `sum(self.provider_usage_count.values())`. -/
def totalQueries (st : AgentState) : Nat :=
  (st.provider_usage_count.map Prod.snd).sum

/-- Python `max(scores)` for a non-empty list. -/
def listMaxQ : List ℚ → ℚ
  | [] => 0
  | x :: xs => xs.foldl max x

/-- The self-balancing score list of `_select_provider`:
`(target_weight - actual_percentage) + random.uniform(0, 5)`, one entry
per candidate in order; the uniform draws are the oracle `jitter`. -/
def selectScores (st : AgentState) (candidates : List Provider)
    (jitter : Nat → ℚ) : List ℚ :=
  (List.range candidates.length).map (fun i =>
    let p := (candidates.getD i default)
    (dGet st.provider_weights p.name 33 -
      (((dGet st.provider_usage_count p.name 0 : Nat) : ℚ) /
        (totalQueries st : ℚ)) * 100) + jitter i)

/-- The candidate list of `_select_provider`: the active providers,
filtered by the `exclude` set when that set is non-empty (an empty set is
falsy in Python, so `if exclude:` skips the filter). -/
def selectCandidates (st : AgentState) (exclude : List String) :
    List Provider :=
  if exclude.isEmpty then st.active_providers
  else st.active_providers.filter (fun p => ¬ p.name ∈ exclude)

/-- `MultiAgentAI._select_provider` (lines 707-762). Oracles: `jitter i`
is the `random.uniform(0, 5)` draw for the `i`-th candidate, and
`choice` resolves `random.choices(candidates, weights=...)` to the
index `choice % len(candidates)` (any index can be drawn; the weights
only shape the distribution). The round-robin rotation
`active_providers.append(active_providers.pop(0))` happens only when
`exclude` is empty/falsy. -/
def _select_provider (st : AgentState) (exclude : List String)
    (jitter : Nat → ℚ) (choice : Nat) : Option Provider × AgentState :=
  if st.active_providers.isEmpty then (none, st)
  else
    let candidates := selectCandidates st exclude
    if candidates.isEmpty then (none, st)
    else
      let pickSt : Provider × AgentState :=
        if st.use_weighted_balancing then
          if totalQueries st = 0 then
            (candidates.getD (choice % candidates.length) default, st)
          else
            let scores := selectScores st candidates jitter
            (candidates.getD (scores.indexOf (listMaxQ scores)) default, st)
        else
          (candidates.headD default,
           if exclude.isEmpty then
             { st with active_providers :=
                 st.active_providers.drop 1 ++ st.active_providers.take 1 }
           else st)
      let provider := pickSt.1
      let st2 := pickSt.2
      let newCounts := dIncr st2.provider_usage_count provider.name
      (some provider, { st2 with provider_usage_count := newCounts })

/-! ### Facts about `listMaxQ`, `dGet`/`dIncr` and `_select_provider` -/

theorem foldl_max_le_init (xs : List ℚ) : ∀ a : ℚ, a ≤ xs.foldl max a := by
  induction xs with
  | nil => intro a; simp
  | cons x xs ih =>
      intro a
      rw [List.foldl_cons]
      exact le_trans (le_max_left a x) (ih (max a x))

theorem mem_le_foldl_max (xs : List ℚ) :
    ∀ (a x : ℚ), x ∈ xs → x ≤ xs.foldl max a := by
  induction xs with
  | nil => intro a x hx; simp at hx
  | cons y xs ih =>
      intro a x hx
      rw [List.foldl_cons]
      rcases List.mem_cons.mp hx with h | h
      · subst h
        exact le_trans (le_max_right a x) (foldl_max_le_init xs (max a x))
      · exact ih (max a y) x h

theorem foldl_max_mem (xs : List ℚ) :
    ∀ a : ℚ, xs.foldl max a = a ∨ xs.foldl max a ∈ xs := by
  induction xs with
  | nil => intro a; left; rfl
  | cons y xs ih =>
      intro a
      rw [List.foldl_cons]
      rcases ih (max a y) with h | h
      · rcases le_total a y with hy | hy
        · right
          rw [h, max_eq_right hy]
          exact List.mem_cons_self y xs
        · left
          rw [h, max_eq_left hy]
      · right
        exact List.mem_cons_of_mem y h

theorem le_listMaxQ {l : List ℚ} {x : ℚ} (hx : x ∈ l) : x ≤ listMaxQ l := by
  cases l with
  | nil => simp at hx
  | cons y ys =>
      rw [listMaxQ]
      rcases List.mem_cons.mp hx with h | h
      · subst h; exact foldl_max_le_init ys x
      · exact mem_le_foldl_max ys y x h

theorem listMaxQ_mem {l : List ℚ} (h : l ≠ []) : listMaxQ l ∈ l := by
  cases l with
  | nil => exact absurd rfl h
  | cons y ys =>
      rw [listMaxQ]
      rcases foldl_max_mem ys y with h2 | h2
      · rw [h2]; exact List.mem_cons_self y ys
      · exact List.mem_cons_of_mem y h2

theorem dGet_dIncr_self {κ : Type} [DecidableEq κ]
    (d : List (κ × Nat)) (k : κ) :
    dGet (dIncr d k) k 0 = dGet d k 0 + 1 := by
  induction d with
  | nil => simp [dGet, dIncr]
  | cons e d ih =>
      obtain ⟨k2, v⟩ := e
      rw [dIncr]
      by_cases h : k2 = k
      · simp [dGet, h]
      · rw [if_neg h, dGet, dGet, if_neg h, if_neg h]
        exact ih

theorem dGet_dIncr_ne {κ : Type} [DecidableEq κ]
    (d : List (κ × Nat)) (k nm : κ) (h : nm ≠ k) :
    dGet (dIncr d k) nm 0 = dGet d nm 0 := by
  induction d with
  | nil => simp [dGet, dIncr, Ne.symm h]
  | cons e d ih =>
      obtain ⟨k2, v⟩ := e
      rw [dIncr]
      by_cases h2 : k2 = k
      · simp [dGet, h2, Ne.symm h]
      · rw [if_neg h2]
        by_cases h3 : k2 = nm
        · simp [dGet, h3]
        · simp [dGet, h3, ih]

/-- C5 (confirmed): with weighted balancing on and non-zero total usage,
`_select_provider` returns the candidate whose score
`(targetWeight - usage/total*100) + jitter` (see `selectScores`) is
maximal among the non-excluded candidates, the drawn jitter values being
inputs. -/
theorem select_provider_highest_score (st : AgentState)
    (exclude : List String) (jitter : Nat → ℚ) (choice : Nat)
    (hw : st.use_weighted_balancing = true)
    (ht : totalQueries st ≠ 0)
    (hc : selectCandidates st exclude ≠ []) :
    ∃ k, k < (selectCandidates st exclude).length ∧
      (_select_provider st exclude jitter choice).1
        = some ((selectCandidates st exclude).getD k default) ∧
      ∀ j, j < (selectCandidates st exclude).length →
        (selectScores st (selectCandidates st exclude) jitter).getD j 0
          ≤ (selectScores st (selectCandidates st exclude) jitter).getD k 0 := by
  have hact : st.active_providers ≠ [] := by
    intro h
    apply hc
    rw [selectCandidates, h]
    cases exclude <;> simp
  have hact2 : st.active_providers.isEmpty = false := by
    simpa [List.isEmpty_iff] using hact
  have hc2 : (selectCandidates st exclude).isEmpty = false := by
    simpa [List.isEmpty_iff] using hc
  have hslen : (selectScores st (selectCandidates st exclude) jitter).length
      = (selectCandidates st exclude).length := by
    rw [selectScores]; simp
  have hsne : selectScores st (selectCandidates st exclude) jitter ≠ [] := by
    intro h
    rw [h] at hslen
    exact hc (List.length_eq_zero.mp hslen.symm)
  have hmax : listMaxQ (selectScores st (selectCandidates st exclude) jitter)
      ∈ selectScores st (selectCandidates st exclude) jitter :=
    listMaxQ_mem hsne
  have hidx : (selectScores st (selectCandidates st exclude) jitter).indexOf
        (listMaxQ (selectScores st (selectCandidates st exclude) jitter))
      < (selectScores st (selectCandidates st exclude) jitter).length :=
    List.indexOf_lt_length.mpr hmax
  refine ⟨(selectScores st (selectCandidates st exclude) jitter).indexOf
      (listMaxQ (selectScores st (selectCandidates st exclude) jitter)),
    by omega, ?_, ?_⟩
  · rw [_select_provider]
    simp only [hact2, Bool.false_eq_true, if_false, hc2, hw, if_true,
      if_neg ht]
  · intro j hj
    have hjm : (selectScores st (selectCandidates st exclude) jitter).getD j 0
        ∈ selectScores st (selectCandidates st exclude) jitter := by
      rw [List.getD_eq_getElem _ 0 (by omega)]
      exact List.getElem_mem _
    have h1 := le_listMaxQ hjm
    have h2 : (selectScores st (selectCandidates st exclude) jitter).getD
        ((selectScores st (selectCandidates st exclude) jitter).indexOf
          (listMaxQ (selectScores st (selectCandidates st exclude) jitter))) 0
        = listMaxQ (selectScores st (selectCandidates st exclude) jitter) := by
      rw [List.getD_eq_getElem _ 0 hidx]
      exact List.getElem_indexOf hidx
    rw [h2]
    exact h1

/-- C8 (confirmed): a call of `_select_provider` that returns a provider
increments exactly that provider's usage counter by one; a call that
returns `None` leaves every counter unchanged. -/
theorem select_provider_usage (st : AgentState) (exclude : List String)
    (jitter : Nat → ℚ) (choice : Nat) :
    ((_select_provider st exclude jitter choice).1 = none →
      (_select_provider st exclude jitter choice).2.provider_usage_count
        = st.provider_usage_count) ∧
    (∀ p : Provider,
      (_select_provider st exclude jitter choice).1 = some p →
      dGet (_select_provider st exclude jitter choice).2.provider_usage_count
          p.name 0
        = dGet st.provider_usage_count p.name 0 + 1 ∧
      (∀ nm : String, nm ≠ p.name →
        dGet (_select_provider st exclude jitter choice).2.provider_usage_count
            nm 0
          = dGet st.provider_usage_count nm 0)) := by
  rw [_select_provider]
  by_cases h1 : st.active_providers.isEmpty
  · simp [h1]
  · simp only [h1, Bool.false_eq_true, if_false]
    by_cases h2 : (selectCandidates st exclude).isEmpty
    · simp [h2]
    · simp only [h2, Bool.false_eq_true, if_false]
      split_ifs <;>
        refine ⟨fun h => by simp at h, fun p hp => ?_⟩ <;>
        · have hp2 := Option.some.inj hp
          subst hp2
          exact ⟨dGet_dIncr_self _ _,
            fun nm hnm => dGet_dIncr_ne _ _ _ hnm⟩

/-- Outcome of a provider whose query fails with error text `"x"`. -/
def failOutcome : ProviderOutcome :=
  { success := false, response := "", error := some "x",
    tokens_used := none, response_time := none }

def provA : Provider := { name := "A", outcome := failOutcome }

def provB : Provider := { name := "B", outcome := failOutcome }

def provC : Provider := { name := "C", outcome := failOutcome }

def provD : Provider := { name := "D", outcome := failOutcome }

/-- A concrete agent state: one past query recorded for provider A. -/
def stWeighted : AgentState :=
  { active_providers := [provA, provB],
    provider_usage_count := [("A", 1)],
    use_weighted_balancing := true,
    provider_weights := [] }

/-- Witness for `select_provider_highest_score`. -/
theorem select_provider_highest_score_witness :
    ∃ k, k < (selectCandidates stWeighted []).length ∧
      (_select_provider stWeighted [] (fun _ => 0) 0).1
        = some ((selectCandidates stWeighted []).getD k default) ∧
      ∀ j, j < (selectCandidates stWeighted []).length →
        (selectScores stWeighted (selectCandidates stWeighted [])
            (fun _ => 0)).getD j 0
          ≤ (selectScores stWeighted (selectCandidates stWeighted [])
            (fun _ => 0)).getD k 0 :=
  select_provider_highest_score stWeighted [] (fun _ => 0) 0
    (by decide) (by decide) (by decide)

/-- Witness for `select_provider_usage`. -/
theorem select_provider_usage_witness :
    ((_select_provider stWeighted [] (fun _ => 0) 0).1 = none →
      (_select_provider stWeighted [] (fun _ => 0) 0).2.provider_usage_count
        = stWeighted.provider_usage_count) ∧
    (∀ p : Provider,
      (_select_provider stWeighted [] (fun _ => 0) 0).1 = some p →
      dGet (_select_provider stWeighted []
          (fun _ => 0) 0).2.provider_usage_count p.name 0
        = dGet stWeighted.provider_usage_count p.name 0 + 1 ∧
      (∀ nm : String, nm ≠ p.name →
        dGet (_select_provider stWeighted []
            (fun _ => 0) 0).2.provider_usage_count nm 0
          = dGet stWeighted.provider_usage_count nm 0)) :=
  select_provider_usage stWeighted [] (fun _ => 0) 0

/-! ### `query_single_chunk` and its failover loop (claims C3, C4) -/

theorem select_provider_cases (st : AgentState) (exclude : List String)
    (jitter : Nat → ℚ) (choice : Nat) :
    ((_select_provider st exclude jitter choice).1 = none →
        (_select_provider st exclude jitter choice).2 = st) ∧
    (∀ p : Provider, (_select_provider st exclude jitter choice).1 = some p →
        p ∈ st.active_providers) ∧
    (∀ q : Provider,
        q ∈ (_select_provider st exclude jitter choice).2.active_providers ↔
        q ∈ st.active_providers) ∧
    (st.active_providers ≠ [] → selectCandidates st exclude ≠ [] →
        ∃ p, (_select_provider st exclude jitter choice).1 = some p) := by
  have hsub : ∀ q : Provider, q ∈ selectCandidates st exclude →
      q ∈ st.active_providers := by
    intro q hq
    rw [selectCandidates] at hq
    split_ifs at hq
    · exact hq
    · exact (List.mem_filter.mp hq).1
  have hperm : (st.active_providers.drop 1 ++ st.active_providers.take 1).Perm
      st.active_providers := by
    have h := List.take_append_drop 1 st.active_providers
    have h2 : (st.active_providers.drop 1 ++
        st.active_providers.take 1).Perm
        (st.active_providers.take 1 ++ st.active_providers.drop 1) :=
      List.perm_append_comm
    rw [h] at h2
    exact h2
  rw [_select_provider]
  by_cases h1 : st.active_providers.isEmpty
  · have h1b : st.active_providers = [] := by
      simpa [List.isEmpty_iff] using h1
    simp [h1, h1b]
  · simp only [h1, Bool.false_eq_true, if_false]
    by_cases h2 : (selectCandidates st exclude).isEmpty
    · have h2b : selectCandidates st exclude = [] := by
        simpa [List.isEmpty_iff] using h2
      simp [h2, h2b]
    · simp only [h2, Bool.false_eq_true, if_false]
      have hclen : 0 < (selectCandidates st exclude).length := by
        simp only [List.isEmpty_iff] at h2
        cases hx : selectCandidates st exclude
        · exact absurd hx h2
        · simp [hx]
      have hgetD : ∀ i, i < (selectCandidates st exclude).length →
          (selectCandidates st exclude).getD i default ∈
            st.active_providers := by
        intro i hi
        apply hsub
        rw [List.getD_eq_getElem _ default hi]
        exact List.getElem_mem hi
      split_ifs with hwb htot
      · -- weighted, first query: random weighted choice
        refine ⟨fun h => by simp at h, ?_, fun q => Iff.rfl, ?_⟩
        · intro p hp
          have hp2 := Option.some.inj hp
          subst hp2
          exact hgetD _ (Nat.mod_lt choice hclen)
        · intro _ _
          exact ⟨_, rfl⟩
      · -- weighted, self-balancing argmax
        have hslen : (selectScores st (selectCandidates st exclude)
            jitter).length = (selectCandidates st exclude).length := by
          rw [selectScores]; simp
        have hsne : selectScores st (selectCandidates st exclude) jitter
            ≠ [] := by
          intro h
          rw [h] at hslen
          rw [List.length_nil] at hslen
          omega
        refine ⟨fun h => by simp at h, ?_, fun q => Iff.rfl, ?_⟩
        · intro p hp
          have hp2 := Option.some.inj hp
          subst hp2
          apply hgetD
          rw [← hslen]
          exact List.indexOf_lt_length.mpr (listMaxQ_mem hsne)
        · intro _ _
          exact ⟨_, rfl⟩
      · -- round robin, rotation
        refine ⟨fun h => by simp at h, ?_, fun q => hperm.mem_iff, ?_⟩
        · intro p hp
          have hp2 := Option.some.inj hp
          subst hp2
          apply hsub
          cases hx : selectCandidates st exclude
          · rw [hx] at hclen; simp at hclen
          · simp
        · intro _ _
          exact ⟨_, rfl⟩
      · -- round robin, no rotation
        refine ⟨fun h => by simp at h, ?_, fun q => Iff.rfl, ?_⟩
        · intro p hp
          have hp2 := Option.some.inj hp
          subst hp2
          apply hsub
          cases hx : selectCandidates st exclude
          · rw [hx] at hclen; simp at hclen
          · simp
        · intro _ _
          exact ⟨_, rfl⟩

/-- Random draws consumed by one `query_single_chunk` call: per attempt
`t`, the jitter stream and the weighted-random pick for the
`_select_provider` call of that attempt. -/
structure RandOracle where
  jitter : Nat → Nat → ℚ
  choice : Nat → Nat

/-- The per-attempt log entry `f"{provider.name}: {err_text}"` with
`err_text = response.error or "Unknown error"`. -/
def attemptEntry (p : Provider) : String :=
  p.name ++ ": " ++ pyOr p.query.error "Unknown error"

/-- The final `return AIResponse(...)` of `query_single_chunk`:
`error="; ".join(errors) if errors else "All providers failed"`. -/
def allFailedResponse (errors : List String) (chunk : PacketChunk) :
    AIResponse :=
  { success := false, response := "",
    error := some (if errors.isEmpty then "All providers failed"
                   else pyJoin "; " errors),
    chunk_id := some chunk.chunk_id }

/-- The `for _ in range(max_attempts)` failover loop of
`query_single_chunk` (lines 764-807), with `fuel` remaining attempts,
`t` the index of the current attempt (for the random oracle), and the
accumulated `tried` set and `errors` log. A quota/429 failure takes the
same path as any other failure (the source only logs a warning). -/
def qscGo : Nat → Nat → AgentState → List String → List String →
    PacketChunk → RandOracle → AIResponse × AgentState
  | 0, _, st, _, errors, chunk, _ => (allFailedResponse errors chunk, st)
  | (fuel + 1), t, st, tried, errors, chunk, rand =>
      match _select_provider st tried (rand.jitter t) (rand.choice t) with
      | (none, st2) => (allFailedResponse errors chunk, st2)
      | (some p, st2) =>
          let response0 := p.query
          let response := { response0 with
            provider := some (pyOr response0.provider p.name),
            chunk_id := some chunk.chunk_id }
          if response.success = true ∧ response.response ≠ "" then
            (response, st2)
          else
            qscGo fuel (t + 1) st2 (tried ++ [p.name])
              (errors ++ [p.name ++ ": " ++ pyOr response.error
                "Unknown error"]) chunk rand

/-- `MultiAgentAI.query_single_chunk` (lines 764-807):
`max_attempts = min(len(self.active_providers), 3)`. The context string
built by `_format_chunk_context` is consumed only by the network call
that each provider's canned outcome abstracts. -/
def query_single_chunk (st : AgentState) (chunk : PacketChunk)
    (rand : RandOracle) : AIResponse × AgentState :=
  qscGo (min st.active_providers.length 3) 0 st [] [] chunk rand

/-- The response the loop returns on its success path: the provider's
response with the provider and chunk metadata filled in. -/
def attemptResponse (p : Provider) (chunk : PacketChunk) : AIResponse :=
  { p.query with
    provider := some (pyOr p.query.provider p.name),
    chunk_id := some chunk.chunk_id }

theorem qscGo_succ_eq (fuel t : Nat) (st : AgentState)
    (tried errors : List String) (chunk : PacketChunk) (rand : RandOracle) :
    qscGo (fuel + 1) t st tried errors chunk rand
      = match _select_provider st tried (rand.jitter t) (rand.choice t) with
        | (none, st2) => (allFailedResponse errors chunk, st2)
        | (some p, st2) =>
            if p.query.success = true ∧ p.query.response ≠ "" then
              (attemptResponse p chunk, st2)
            else
              qscGo fuel (t + 1) st2 (tried ++ [p.name])
                (errors ++ [attemptEntry p]) chunk rand := by
  rw [qscGo]
  rcases _select_provider st tried (rand.jitter t) (rand.choice t)
    with ⟨r, st2⟩
  cases r with
  | none => rfl
  | some p => rfl

theorem qscGo_all_fail :
    ∀ (fuel t : Nat) (st : AgentState) (tried errors : List String)
      (chunk : PacketChunk) (rand : RandOracle),
      (∀ p ∈ st.active_providers,
        ¬ (p.query.success = true ∧ p.query.response ≠ "")) →
      ∃ attempts : List Provider,
        attempts.length ≤ fuel ∧
        (∀ p ∈ attempts, p ∈ st.active_providers) ∧
        (qscGo fuel t st tried errors chunk rand).1
          = allFailedResponse (errors ++ attempts.map attemptEntry) chunk ∧
        (fuel ≠ 0 → selectCandidates st tried ≠ [] → attempts ≠ []) := by
  intro fuel
  induction fuel with
  | zero =>
      intro t st tried errors chunk rand _
      exact ⟨[], by simp, by simp, by simp [qscGo], by simp⟩
  | succ fuel ih =>
      intro t st tried errors chunk rand hfail
      have hcases := select_provider_cases st tried (rand.jitter t)
        (rand.choice t)
      rw [qscGo]
      rcases hsel : _select_provider st tried (rand.jitter t)
        (rand.choice t) with ⟨r, st2⟩
      cases r with
      | none =>
          refine ⟨[], by simp, by simp, by simp [hsel], ?_⟩
          intro _ hcand
          exfalso
          have hact : st.active_providers ≠ [] := by
            intro h
            apply hcand
            rw [selectCandidates, h]
            cases tried <;> simp
          obtain ⟨p, hp⟩ := hcases.2.2.2 hact hcand
          rw [hsel] at hp
          simp at hp
      | some p =>
          have hpmem : p ∈ st.active_providers := by
            apply hcases.2.1 p
            rw [hsel]
          have hfp := hfail p hpmem
          have hcond : ¬ ({ p.query with
              provider := some (pyOr p.query.provider p.name),
              chunk_id := some chunk.chunk_id }.success = true ∧
              { p.query with
                provider := some (pyOr p.query.provider p.name),
                chunk_id := some chunk.chunk_id }.response ≠ "") := by
            simpa using hfp
          have hfail2 : ∀ q ∈ st2.active_providers,
              ¬ (q.query.success = true ∧ q.query.response ≠ "") := by
            intro q hq
            apply hfail
            have := hcases.2.2.1 q
            rw [hsel] at this
            exact this.mp hq
          obtain ⟨attempts, hlen, hmem, hres, -⟩ :=
            ih (t + 1) st2 (tried ++ [p.name])
              (errors ++ [p.name ++ ": " ++ pyOr p.query.error
                "Unknown error"]) chunk rand hfail2
          refine ⟨p :: attempts, by simpa using hlen, ?_, ?_, ?_⟩
          · intro q hq
            rcases List.mem_cons.mp hq with h | h
            · subst h; exact hpmem
            · have := hcases.2.2.1 q
              rw [hsel] at this
              exact this.mp (hmem q h)
          · simp only [hcond, if_false]
            rw [hres]
            congr 1
            rw [List.map_cons, attemptEntry]
            rw [List.append_assoc]
            rfl
          · intro _ _
            simp

/-- C3 (amended): if every active backend's query fails, the chunk's
result has `success = false` and its error string is exactly the attempt
log — one entry `"name: errText"` per attempted backend, in attempt
order, joined by `"; "` — where the number of attempts is capped at
`min(#active, 3)`, so with more than three active backends the never
attempted candidates do not appear in the error string. -/
theorem query_single_chunk_all_fail (st : AgentState) (chunk : PacketChunk)
    (rand : RandOracle)
    (hfail : ∀ p ∈ st.active_providers,
      ¬ (p.query.success = true ∧ p.query.response ≠ ""))
    (hne : st.active_providers ≠ []) :
    ∃ attempts : List Provider,
      attempts ≠ [] ∧
      attempts.length ≤ min st.active_providers.length 3 ∧
      (∀ p ∈ attempts, p ∈ st.active_providers) ∧
      (query_single_chunk st chunk rand).1
        = { success := false, response := "",
            error := some (pyJoin "; " (attempts.map attemptEntry)),
            chunk_id := some chunk.chunk_id } := by
  obtain ⟨attempts, hlen, hmem, hres, hnonempty⟩ :=
    qscGo_all_fail (min st.active_providers.length 3) 0 st [] [] chunk
      rand hfail
  have hpos : 0 < st.active_providers.length := List.length_pos.mpr hne
  have hfuel : min st.active_providers.length 3 ≠ 0 := by omega
  have hcand : selectCandidates st [] ≠ [] := by
    rw [selectCandidates]
    simpa using hne
  have hatt : attempts ≠ [] := hnonempty hfuel hcand
  refine ⟨attempts, hatt, hlen, hmem, ?_⟩
  rw [query_single_chunk, hres, allFailedResponse]
  have hmape : (attempts.map attemptEntry).isEmpty = false := by
    cases hx : attempts
    · exact absurd hx hatt
    · simp [hx]
  rw [List.nil_append, hmape]
  rfl

/-- Random oracle drawing zero jitter and the first weighted pick. -/
def zeroRand : RandOracle := { jitter := fun _ _ => 0, choice := fun _ => 0 }

/-- A concrete chunk (its content is irrelevant to the failover loop). -/
def emptyChunk : PacketChunk :=
  { chunk_id := (0, 0), packets := [], summary := {}, size_mb := 0,
    packet_count := 0 }

/-- Four active providers, all failing with error text `"x"`; round-robin
mode (the claim does not depend on the balancing mode, and the weighted
path's selection under the same oracle picks the same three backends). -/
def stQuad : AgentState :=
  { active_providers := [provA, provB, provC, provD],
    provider_usage_count := [],
    use_weighted_balancing := false,
    provider_weights := [] }

/-- C3 counterexample: with four candidate backends, all failing, only
`min(4, 3) = 3` are attempted, so the error string "A: x; B: x; C: x"
does not contain candidate D's name, contradicting the claim that it
contains every candidate backend's name and error text. -/
theorem query_single_chunk_all_fail_cex :
    (∀ p ∈ stQuad.active_providers, p.query.success = false) ∧
    (query_single_chunk stQuad emptyChunk zeroRand).1.success = false ∧
    (query_single_chunk stQuad emptyChunk zeroRand).1.error
      = some "A: x; B: x; C: x" ∧
    (((query_single_chunk stQuad emptyChunk
        zeroRand).1.error.getD "").data.contains 'D') = false := by
  refine ⟨by decide, by decide, by decide, by decide⟩

/-- Witness for `query_single_chunk_all_fail`. -/
theorem query_single_chunk_all_fail_witness :
    ∃ attempts : List Provider,
      attempts ≠ [] ∧
      attempts.length ≤ min stQuad.active_providers.length 3 ∧
      (∀ p ∈ attempts, p ∈ stQuad.active_providers) ∧
      (query_single_chunk stQuad emptyChunk zeroRand).1
        = { success := false, response := "",
            error := some (pyJoin "; " (attempts.map attemptEntry)),
            chunk_id := some emptyChunk.chunk_id } :=
  query_single_chunk_all_fail stQuad emptyChunk zeroRand (by decide)
    (by decide)

/-! ### Response invariants (claim C4) -/

theorem string_length_pos_of_ne {s : String} (h : s ≠ "") : 0 < s.length := by
  obtain ⟨d⟩ := s
  cases d
  · exact absurd rfl h
  · simp [String.length]

theorem string_ne_empty_of_length {s : String} (h : 0 < s.length) :
    s ≠ "" := by
  intro he
  subst he
  simp at h

theorem pyJoin_ne_empty {sep : String} {es : List String} (hne : es ≠ [])
    (hall : ∀ e ∈ es, e ≠ "") : pyJoin sep es ≠ "" := by
  apply string_ne_empty_of_length
  cases es with
  | nil => exact absurd rfl hne
  | cons e es =>
      have he : 0 < e.length :=
        string_length_pos_of_ne (hall e (List.mem_cons_self e es))
      cases es with
      | nil => simpa [pyJoin] using he
      | cons e2 es =>
          rw [pyJoin, String.length_append, String.length_append]
          omega

/-- The HTTP outcome seen by `GroqProvider.query`: either a response with
a status code (200 carries the parsed message content and token count,
anything else the error body), or a raised exception. -/
inductive GroqHttp where
  | response (status : Nat) (content : String) (totalTokens : Option Nat)
      (bodyText : String)
  | exn (msg : String)
deriving DecidableEq

/-- `GroqProvider.query` (lines 110-164): on HTTP 200 a success carrying
the API-supplied content verbatim; otherwise a failure with error
`"HTTP {status}: {body}"`; on an exception a failure with `str(e)`. -/
def GroqProvider.query (h : GroqHttp) (elapsed : ℚ) : AIResponse :=
  match h with
  | .response status content tokens body =>
      if status = 200 then
        { success := true, response := content, provider := some "Groq",
          tokens_used := tokens, response_time := some elapsed }
      else
        { success := false, response := "",
          error := some ("HTTP " ++ toString status ++ ": " ++ body),
          provider := some "Groq" }
  | .exn msg =>
      { success := false, response := "", error := some msg,
        provider := some "Groq" }

theorem qscGo_invariant :
    ∀ (fuel t : Nat) (st : AgentState) (tried errors : List String)
      (chunk : PacketChunk) (rand : RandOracle),
      (∀ e ∈ errors, e ≠ "") →
      (((qscGo fuel t st tried errors chunk rand).1.success = true →
          (qscGo fuel t st tried errors chunk rand).1.response ≠ "") ∧
       ((qscGo fuel t st tried errors chunk rand).1.success = false →
          ∃ msg, (qscGo fuel t st tried errors chunk rand).1.error
              = some msg ∧ msg ≠ "")) := by
  intro fuel
  have hbase : ∀ (errors : List String) (chunk : PacketChunk),
      (∀ e ∈ errors, e ≠ "") →
      ∃ msg, (allFailedResponse errors chunk).error = some msg ∧
        msg ≠ "" := by
    intro errors chunk hall
    refine ⟨_, rfl, ?_⟩
    cases hx : errors with
    | nil => simp
    | cons e es =>
        have h2 : (e :: es).isEmpty = false := by simp
        rw [h2]
        simp only [Bool.false_eq_true, if_false]
        exact pyJoin_ne_empty (List.cons_ne_nil e es)
          (fun f hf => hall f (hx.symm ▸ hf))
  induction fuel with
  | zero =>
      intro t st tried errors chunk rand hall
      constructor
      · intro h
        simp [qscGo, allFailedResponse] at h
      · intro _
        exact hbase errors chunk hall
  | succ fuel ih =>
      intro t st tried errors chunk rand hall
      rw [qscGo_succ_eq]
      rcases _select_provider st tried (rand.jitter t) (rand.choice t)
        with ⟨r, st2⟩
      cases r with
      | none =>
          constructor
          · intro h
            simp [allFailedResponse] at h
          · intro _
            exact hbase errors chunk hall
      | some p =>
          dsimp only
          by_cases hcond : (p.query.success = true ∧ p.query.response ≠ "")
          · rw [if_pos hcond]
            constructor
            · intro _
              exact hcond.2
            · intro h
              rw [show (attemptResponse p chunk).success = p.query.success
                  from rfl, hcond.1] at h
              simp at h
          · rw [if_neg hcond]
            apply ih
            intro e he
            rcases List.mem_append.mp he with h | h
            · exact hall e h
            · rw [List.mem_singleton] at h
              subst h
              rw [attemptEntry]
              apply string_ne_empty_of_length
              rw [String.length_append, String.length_append]
              have : (": " : String).length = 2 := by decide
              omega

/-- C4 (amended): every `AIResponse` returned by the per-chunk dispatch
loop `query_single_chunk` satisfies the invariant — a success carries a
non-empty response text and a failure a non-empty error description —
and a provider-level HTTP failure also carries a non-empty error; but a
provider-level *success* merely carries the API-supplied content, which
can be empty (see the counterexample), and such responses are treated as
failures by the dispatch loop's `if response.success and
response.response` guard. -/
theorem query_responses_invariant :
    (∀ (st : AgentState) (chunk : PacketChunk) (rand : RandOracle),
      ((query_single_chunk st chunk rand).1.success = true →
        (query_single_chunk st chunk rand).1.response ≠ "") ∧
      ((query_single_chunk st chunk rand).1.success = false →
        ∃ msg, (query_single_chunk st chunk rand).1.error = some msg ∧
          msg ≠ "")) ∧
    (∀ (status : Nat) (content body : String) (tokens : Option Nat)
        (elapsed : ℚ), status ≠ 200 →
      ∃ msg, (GroqProvider.query (.response status content tokens body)
          elapsed).error = some msg ∧ msg ≠ "") := by
  constructor
  · intro st chunk rand
    exact qscGo_invariant (min st.active_providers.length 3) 0 st [] []
      chunk rand (by simp)
  · intro status content body tokens elapsed hs
    rw [GroqProvider.query]
    rw [if_neg hs]
    refine ⟨_, rfl, ?_⟩
    apply string_ne_empty_of_length
    rw [String.length_append, String.length_append, String.length_append]
    have h5 : ("HTTP " : String).length = 5 := by decide
    omega

/-- C4 counterexample: an HTTP 200 reply whose message content is the
empty string yields `AIResponse(success=True, response="")` from
`GroqProvider.query`, violating the claimed invariant at provider
level. -/
theorem query_responses_invariant_cex :
    (GroqProvider.query (.response 200 "" none "") 0).success = true ∧
    (GroqProvider.query (.response 200 "" none "") 0).response = "" :=
  ⟨rfl, rfl⟩

/-- Witness for `query_responses_invariant`. -/
theorem query_responses_invariant_witness :
    (((query_single_chunk stQuad emptyChunk zeroRand).1.success = true →
        (query_single_chunk stQuad emptyChunk zeroRand).1.response ≠ "") ∧
      ((query_single_chunk stQuad emptyChunk zeroRand).1.success = false →
        ∃ msg, (query_single_chunk stQuad emptyChunk zeroRand).1.error
            = some msg ∧ msg ≠ "")) ∧
    (1 ≠ 200 ∧
      ∃ msg, (GroqProvider.query (.response 1 "" none "boom") 0).error
          = some msg ∧ msg ≠ "") :=
  ⟨query_responses_invariant.1 stQuad emptyChunk zeroRand,
   by decide,
   query_responses_invariant.2 1 "" "boom" none 0 (by decide)⟩

/-! ### `combine_responses`, `query` and `query_ai_async`
(claims C7, C9, C10) -/

/-- Python `f"{x}"` of an optional string: `None` renders as `"None"`. -/
def optStr (o : Option String) : String :=
  match o with
  | none => "None"
  | some s => s

/-- Python `f"{x:.2f}"` on the exactly-represented float `q`: `q * 100`
rounded to the nearest integer (computed on the numerator/denominator;
Python rounds exact half-ulp ties to even, which no claim observes),
rendered with two decimals. -/
def fmt2 (q : ℚ) : String :=
  let c : Int := (2 * (q.num * 100) + (q.den : Int)) / (2 * (q.den : Int))
  let ip : Int := c / 100
  let fp : Nat := (c % 100).toNat
  toString ip ++ "." ++ (if fp < 10 then "0" else "") ++ toString fp

def insertSorted (a : String) : List String → List String
  | [] => [a]
  | b :: bs => if a ≤ b then a :: b :: bs else b :: insertSorted a bs

/-- Python `sorted(xs)` on strings (ascending by code point). -/
def pySorted (l : List String) : List String := l.foldr insertSorted []

/-- One iteration of the `for i, response in
enumerate(successful_responses, 1)` loop of `combine_responses`: the
three `combined += ...` lines for chunk number `i`. -/
def chunkSection (i : Nat) (r : AIResponse) : String :=
  "### Chunk " ++ toString i ++ " Analysis (" ++ optStr r.provider ++
    "):\n" ++ r.response ++ "\n\n" ++ "---\n\n"

/-- `MultiAgentAI.combine_responses` (lines 889-922). The source file
stores its emoji literals in a corrupted encoding; we use the intended
characters, which no claim observes. Generator filters `if
r.response_time` and `if r.tokens_used` drop both `None` and `0` values
(Python falsiness); `sorted({...})` is deduplication plus sorting. -/
def combine_responses (responses : List AIResponse) : String :=
  let successful_responses := responses.filter (fun r => r.success)
  let failed_responses := responses.filter (fun r => !r.success)
  if successful_responses.isEmpty then
    "❌ Analysis failed for all chunks. Please check your AI provider connections."
  else
    let combined := "🔍 **Multi-Chunk Analysis Summary** (" ++
      toString successful_responses.length ++ "/" ++
      toString responses.length ++ " chunks analyzed successfully)\n\n"
    let combined := combined ++
      String.join (successful_responses.enum.map
        (fun ir => chunkSection (ir.1 + 1) ir.2))
    let combined :=
      if failed_responses.isEmpty then combined
      else combined ++ ("⚠️ **Note**: " ++
        toString failed_responses.length ++
        " chunks failed to analyze due to errors.\n")
    let total_time : ℚ :=
      ((successful_responses.filterMap (fun r => r.response_time)).filter
        (fun q => ¬ q = 0)).sum
    let total_tokens : Nat :=
      ((successful_responses.filterMap (fun r => r.tokens_used)).filter
        (fun n => ¬ n = 0)).sum
    let providers_used := pySorted (dedupFirst
      ((successful_responses.filterMap (fun r => r.provider)).filter
        (fun s => ¬ s = "")))
    combined ++ ("\n📊 **Performance Summary**:\n" ++
      "- Total processing time: " ++ fmt2 total_time ++ " seconds\n" ++
      "- Total tokens used: " ++ toString total_tokens ++ "\n" ++
      "- Providers used: " ++ pyJoin ", " providers_used ++ "\n")

def noProvidersResponse : AIResponse :=
  { success := false, response := "",
    error := some "No active AI providers available" }

def noDataResponse : AIResponse :=
  { success := false, response := "",
    error := some "No valid packet data to analyze" }

/-- The per-chunk tasks of `MultiAgentAI.query`, threading the agent
state; chunk `i` consumes the random oracle `rands i`. -/
def queryChunksGo : List PacketChunk → Nat → AgentState →
    (Nat → RandOracle) → List AIResponse × AgentState
  | [], _, st, _ => ([], st)
  | c :: cs, i, st, rands =>
      let rst := query_single_chunk st c (rands i)
      let rest := queryChunksGo cs (i + 1) rst.2 rands
      (rst.1 :: rest.1, rest.2)

/-- `MultiAgentAI.query` (lines 845-887). `asyncio.gather` over the
per-chunk tasks is modelled by the sequential interleaving (selection
and its counter update are synchronous between `await` points); the
`isinstance(response, Exception)` normalisation arm is unreachable here
because `query_single_chunk` returns an `AIResponse` on every path. -/
def MultiAgentAI.query (st : AgentState) (packets : List Packet)
    (rands : Nat → RandOracle) : List AIResponse × AgentState :=
  if st.active_providers.isEmpty then ([noProvidersResponse], st)
  else
    let chunks := chunk_packets packets
    if chunks.isEmpty then ([noDataResponse], st)
    else queryChunksGo chunks 0 st rands

/-- The dict returned by `query_ai_async`. -/
structure QueryAiOut where
  success : Bool
  response : String
  error : Option String
  provider_responses : List AIResponse
deriving DecidableEq

/-- `query_ai_async` (lines 928-948). `if provider_name:` is falsy for
both `None` and `""`; on a name match the active list is swapped for the
filtered list for the duration of the call and restored afterwards. -/
def query_ai_async (st : AgentState) (packets : List Packet)
    (provider_name : Option String) (rands : Nat → RandOracle) :
    QueryAiOut × AgentState :=
  let resSt : List AIResponse × AgentState :=
    match provider_name with
    | some name =>
        if name = "" then MultiAgentAI.query st packets rands
        else
          let selected := st.active_providers.filter
            (fun p : Provider => p.name = name)
          if selected.isEmpty then MultiAgentAI.query st packets rands
          else
            let r2 := MultiAgentAI.query
              { st with active_providers := selected } packets rands
            (r2.1, { r2.2 with active_providers := st.active_providers })
    | none => MultiAgentAI.query st packets rands
  let responses := resSt.1
  ({ success := responses.any (fun r => r.success),
     response := combine_responses responses,
     error := if responses.any (fun r => r.success) then none
              else some "All providers failed",
     provider_responses := responses }, resSt.2)

/-! ### The failure banner and the overall success flag (claim C7) -/

theorem string_head_ne {s t : String} (h : s.data.head? ≠ t.data.head?) :
    s ≠ t :=
  fun he => h (by rw [he])

theorem headPrefix (x y : String) (c : Char) (h : x.data.head? = some c) :
    (x ++ y).data.head? = some c := by
  rw [String.data_append]
  cases hd : x.data with
  | nil => rw [hd] at h; simp at h
  | cons a as =>
      rw [hd] at h
      simp only [List.head?_cons, Option.some.injEq] at h
      simp [h]

theorem combine_ne_banner (responses : List AIResponse)
    (h : responses.filter (fun r => r.success) ≠ []) :
    combine_responses responses ≠
      "❌ Analysis failed for all chunks. Please check your AI provider connections." := by
  rw [combine_responses]
  have hne : (responses.filter (fun r => r.success)).isEmpty = false := by
    simpa [List.isEmpty_iff] using h
  simp only [hne, Bool.false_eq_true, if_false]
  have hdiff : (some '🔍' : Option Char) ≠ some '❌' := by decide
  have hb : ("❌ Analysis failed for all chunks. Please check your AI provider connections.").data.head?
      = some '❌' := by decide
  split_ifs <;>
  · apply string_head_ne
    rw [hb]
    refine ne_of_eq_of_ne ?_ hdiff
    repeat apply headPrefix
    decide

/-- C7 (confirmed): `combine_responses` returns the fixed failure banner
exactly when the input has no successful result (including the empty
list), and `query_ai_async`'s overall success flag is true iff at least
one per-chunk result succeeded. -/
theorem combine_banner_success_flag :
    (∀ responses : List AIResponse,
      (combine_responses responses
          = "❌ Analysis failed for all chunks. Please check your AI provider connections."
        ↔ ∀ r ∈ responses, r.success = false)) ∧
    (∀ (st : AgentState) (packets : List Packet) (pname : Option String)
        (rands : Nat → RandOracle),
      ((query_ai_async st packets pname rands).1.success = true
        ↔ ∃ r ∈ (query_ai_async st packets pname rands).1.provider_responses,
            r.success = true)) := by
  constructor
  · intro responses
    constructor
    · intro h
      by_contra hx
      push_neg at hx
      obtain ⟨r, hr, hs⟩ := hx
      have hst : r.success = true := by
        cases hsv : r.success
        · exact absurd hsv hs
        · rfl
      apply combine_ne_banner responses ?_ h
      intro hf
      have := List.filter_eq_nil_iff.mp hf r hr
      simp [hst] at this
    · intro hall
      rw [combine_responses]
      have hemp : (responses.filter (fun r => r.success)).isEmpty = true := by
        rw [List.isEmpty_iff, List.filter_eq_nil_iff]
        intro a ha
        simp [hall a ha]
      rw [hemp]
      rfl
  · intro st packets pname rands
    unfold query_ai_async
    dsimp only
    exact List.any_eq_true

/-- Witness for `combine_banner_success_flag`. -/
theorem combine_banner_success_flag_witness :
    ((combine_responses []
        = "❌ Analysis failed for all chunks. Please check your AI provider connections."
      ↔ ∀ r ∈ ([] : List AIResponse), r.success = false)) ∧
    ((query_ai_async stQuad [] none (fun _ => zeroRand)).1.success = true
      ↔ ∃ r ∈ (query_ai_async stQuad [] none
          (fun _ => zeroRand)).1.provider_responses, r.success = true) :=
  ⟨combine_banner_success_flag.1 [],
   combine_banner_success_flag.2 stQuad [] none (fun _ => zeroRand)⟩

/-! ### Chunk numbering in the combined report (claim C10) -/

theorem data_foldl_append (l : List String) :
    ∀ acc : String, (l.foldl (fun r s => r ++ s) acc).data
      = acc.data ++ (l.map String.data).flatten := by
  induction l with
  | nil => intro acc; simp
  | cons s l ih =>
      intro acc
      rw [List.foldl_cons, ih (acc ++ s)]
      rw [String.data_append]
      simp [List.append_assoc]

theorem data_join (l : List String) :
    (String.join l).data = (l.map String.data).flatten := by
  rw [String.join, data_foldl_append]
  rfl

theorem strInfix_left (x : String) {l : List Char} {m : String}
    (h : l <:+: m.data) : l <:+: (x ++ m).data := by
  rw [String.data_append]
  obtain ⟨u, v, huv⟩ := h
  exact ⟨x.data ++ u, v, by rw [← huv]; simp [List.append_assoc]⟩

theorem strInfix_right (y : String) {l : List Char} {m : String}
    (h : l <:+: m.data) : l <:+: (m ++ y).data := by
  rw [String.data_append]
  obtain ⟨u, v, huv⟩ := h
  exact ⟨u, v ++ y.data, by rw [← huv]; simp [List.append_assoc]⟩

theorem label_infix_section (i : Nat) (r : AIResponse) :
    ("### Chunk " ++ toString i ++ " Analysis (" ++ optStr r.provider
      ++ "):").data <:+: (chunkSection i r).data := by
  refine ⟨[], ("\n" ++ r.response ++ "\n\n" ++ "---\n\n").data, ?_⟩
  rw [chunkSection]
  have hsplit : ("):\n" : String).data
      = ("):" : String).data ++ ("\n" : String).data := by decide
  simp [String.data_append, hsplit, List.append_assoc]

def failRespE : AIResponse :=
  { success := false, response := "", error := some "e" }

def okRespP : AIResponse :=
  { success := true, response := "R", provider := some "P" }

theorem combine_shape (responses : List AIResponse)
    (hne : (responses.filter (fun r => r.success)).isEmpty = false) :
    ∃ pre tail : String,
      combine_responses responses
        = (pre ++ String.join
            ((responses.filter (fun r => r.success)).enum.map
              (fun ir => chunkSection (ir.1 + 1) ir.2))) ++ tail := by
  rw [combine_responses]
  simp only [hne, Bool.false_eq_true, if_false]
  split_ifs
  · exact ⟨_, _, rfl⟩
  · exact ⟨_, _, String.append_assoc _ _ _⟩

set_option maxHeartbeats 400000 in
theorem combine_label_occurs :
    ∀ (responses : List AIResponse) (j : Nat),
      j < (responses.filter (fun r => r.success)).length →
      ("### Chunk " ++ toString (j + 1) ++ " Analysis ("
          ++ optStr ((responses.filter (fun r => r.success)).getD j
              noDataResponse).provider ++ "):").data
        <:+: (combine_responses responses).data := by
  intro responses j hj
  have hne : (responses.filter (fun r => r.success)).isEmpty = false := by
    cases hx : responses.filter (fun r => r.success)
    · rw [hx] at hj; simp at hj
    · simp [hx]
  obtain ⟨pre, tail, hshape⟩ := combine_shape responses hne
  rw [hshape]
  have hj2 : j < (responses.filter (fun r => r.success)).enum.length := by
    rw [List.enum_length]
    exact hj
  have hjm : (j, (responses.filter (fun r => r.success)).getD j
      noDataResponse) ∈ (responses.filter (fun r => r.success)).enum := by
    rw [List.getD_eq_getElem _ noDataResponse hj]
    rw [← List.getElem_enum _ j hj2]
    exact List.getElem_mem hj2
  have hsecmem : chunkSection (j + 1)
      ((responses.filter (fun r => r.success)).getD j noDataResponse)
      ∈ (responses.filter (fun r => r.success)).enum.map
        (fun ir => chunkSection (ir.1 + 1) ir.2) :=
    List.mem_map.mpr ⟨_, hjm, rfl⟩
  have hdmem := List.mem_map_of_mem String.data hsecmem
  have hflat := List.infix_of_mem_flatten hdmem
  have hlab := label_infix_section (j + 1)
    ((responses.filter (fun r => r.success)).getD j noDataResponse)
  have hsec := List.IsInfix.trans hlab hflat
  rw [← data_join] at hsec
  exact strInfix_right _ (strInfix_left _ hsec)

set_option maxRecDepth 100000 in
set_option maxHeartbeats 2000000 in
theorem combine_chunk2_absent :
    ¬ (("### Chunk 2").data
        <:+: (combine_responses [failRespE, okRespP]).data) := by decide

/-- C10 (confirmed): in the combined report the successful results are
numbered 1..k by their position among the successes only; with a failed
chunk before a successful one, the label is "Chunk 1", not "Chunk 2" —
labels do not track original positions. -/
theorem combine_chunk_numbering :
    (∀ (responses : List AIResponse) (j : Nat),
      j < (responses.filter (fun r => r.success)).length →
      ("### Chunk " ++ toString (j + 1) ++ " Analysis ("
          ++ optStr ((responses.filter (fun r => r.success)).getD j
              noDataResponse).provider ++ "):").data
        <:+: (combine_responses responses).data) ∧
    (("### Chunk 1 Analysis (P):").data
        <:+: (combine_responses [failRespE, okRespP]).data) ∧
    ¬ (("### Chunk 2").data
        <:+: (combine_responses [failRespE, okRespP]).data) := by
  refine ⟨combine_label_occurs, ?_, combine_chunk2_absent⟩
  have h := combine_label_occurs [failRespE, okRespP] 0 (by decide)
  have he : ("### Chunk " ++ toString (0 + 1) ++ " Analysis ("
      ++ optStr ((([failRespE, okRespP].filter
          (fun r => r.success)).getD 0 noDataResponse).provider)
      ++ "):") = "### Chunk 1 Analysis (P):" := by decide
  rw [he] at h
  exact h

/-- Witness for `combine_chunk_numbering`. -/
theorem combine_chunk_numbering_witness :
    0 < ([okRespP].filter (fun r => r.success)).length ∧
    ("### Chunk " ++ toString (0 + 1) ++ " Analysis ("
        ++ optStr (([okRespP].filter (fun r => r.success)).getD 0
            noDataResponse).provider ++ "):").data
      <:+: (combine_responses [okRespP]).data :=
  ⟨by decide, combine_chunk_numbering.1 [okRespP] 0 (by decide)⟩

/-! ### Provider-name constraint and state restoration (claim C9) -/

theorem pyOr_self (s : String) : pyOr (some s) s = s := ite_self s

theorem qscGo_active_mem :
    ∀ (fuel t : Nat) (st : AgentState) (tried errors : List String)
      (chunk : PacketChunk) (rand : RandOracle) (q : Provider),
      (q ∈ (qscGo fuel t st tried errors chunk rand).2.active_providers ↔
        q ∈ st.active_providers) := by
  intro fuel
  induction fuel with
  | zero => intro t st tried errors chunk rand q; rw [qscGo]
  | succ fuel ih =>
      intro t st tried errors chunk rand q
      rw [qscGo_succ_eq]
      have hcases := select_provider_cases st tried (rand.jitter t)
        (rand.choice t)
      rcases hsel : _select_provider st tried (rand.jitter t)
        (rand.choice t) with ⟨r, st2⟩
      have hmemiff : q ∈ st2.active_providers ↔ q ∈ st.active_providers := by
        have := hcases.2.2.1 q
        rw [hsel] at this
        exact this
      cases r with
      | none => exact hmemiff
      | some p =>
          dsimp only
          by_cases hcond : (p.query.success = true ∧ p.query.response ≠ "")
          · rw [if_pos hcond]
            exact hmemiff
          · rw [if_neg hcond]
            exact (ih (t + 1) st2 (tried ++ [p.name])
              (errors ++ [attemptEntry p]) chunk rand q).trans hmemiff

theorem qscGo_provider_name :
    ∀ (fuel t : Nat) (st : AgentState) (tried errors : List String)
      (chunk : PacketChunk) (rand : RandOracle) (nm : String),
      (∀ p ∈ st.active_providers, p.name = nm) →
      (qscGo fuel t st tried errors chunk rand).1.success = true →
      (qscGo fuel t st tried errors chunk rand).1.provider = some nm := by
  intro fuel
  induction fuel with
  | zero =>
      intro t st tried errors chunk rand nm _ hs
      rw [qscGo] at hs
      simp [allFailedResponse] at hs
  | succ fuel ih =>
      intro t st tried errors chunk rand nm hall
      rw [qscGo_succ_eq]
      have hcases := select_provider_cases st tried (rand.jitter t)
        (rand.choice t)
      rcases hsel : _select_provider st tried (rand.jitter t)
        (rand.choice t) with ⟨r, st2⟩
      cases r with
      | none =>
          intro hs
          simp [allFailedResponse] at hs
      | some p =>
          have hpmem : p ∈ st.active_providers := by
            apply hcases.2.1 p
            rw [hsel]
          have hpn : p.name = nm := hall p hpmem
          dsimp only
          by_cases hcond : (p.query.success = true ∧ p.query.response ≠ "")
          · rw [if_pos hcond]
            intro _
            show some (pyOr (some p.name) p.name) = some nm
            rw [pyOr_self, hpn]
          · rw [if_neg hcond]
            apply ih
            intro q hq
            apply hall
            have := hcases.2.2.1 q
            rw [hsel] at this
            exact this.mp hq

theorem queryChunksGo_provider_name :
    ∀ (chunks : List PacketChunk) (i : Nat) (st : AgentState)
      (rands : Nat → RandOracle) (nm : String),
      (∀ p ∈ st.active_providers, p.name = nm) →
      ∀ r ∈ (queryChunksGo chunks i st rands).1,
        r.success = true → r.provider = some nm := by
  intro chunks
  induction chunks with
  | nil => intro i st rands nm _ r hr; simp [queryChunksGo] at hr
  | cons c cs ih =>
      intro i st rands nm hall r hr
      rw [queryChunksGo] at hr
      rcases List.mem_cons.mp hr with h | h
      · subst h
        exact qscGo_provider_name _ 0 st [] [] c (rands i) nm hall
      · apply ih (i + 1) (query_single_chunk st c (rands i)).2 rands nm
          ?_ r h
        intro q hq
        apply hall
        exact (qscGo_active_mem _ 0 st [] [] c (rands i) q).mp hq

theorem query_provider_name (st : AgentState) (packets : List Packet)
    (rands : Nat → RandOracle) (nm : String)
    (hall : ∀ p ∈ st.active_providers, p.name = nm) :
    ∀ r ∈ (MultiAgentAI.query st packets rands).1,
      r.success = true → r.provider = some nm := by
  rw [MultiAgentAI.query]
  by_cases h1 : st.active_providers.isEmpty
  · simp only [h1, if_pos]
    intro r hr hs
    rw [List.mem_singleton] at hr
    subst hr
    simp [noProvidersResponse] at hs
  · simp only [h1, Bool.false_eq_true, if_false]
    by_cases h2 : (chunk_packets packets).isEmpty
    · simp only [h2, if_pos]
      intro r hr hs
      rw [List.mem_singleton] at hr
      subst hr
      simp [noDataResponse] at hs
    · simp only [h2, Bool.false_eq_true, if_false]
      exact queryChunksGo_provider_name (chunk_packets packets) 0 st rands
        nm hall

/-- C9 (confirmed): if `provider_name` names an active provider, every
successful per-chunk result of the call carries that provider's name and
the active provider list is restored after the call; if it names no
active provider, the call is identical to a call with no provider name
(`if provider_name:` is also falsy for the empty string, hence the
non-empty-name hypothesis in the first part). -/
theorem query_ai_async_provider_override (st : AgentState)
    (packets : List Packet) (name : String) (rands : Nat → RandOracle) :
    (name ≠ "" →
      st.active_providers.filter (fun p : Provider => p.name = name) ≠ [] →
      ((∀ r ∈ (query_ai_async st packets (some name)
            rands).1.provider_responses,
          r.success = true → r.provider = some name) ∧
        (query_ai_async st packets (some name) rands).2.active_providers
          = st.active_providers)) ∧
    (st.active_providers.filter (fun p : Provider => p.name = name) = [] →
      query_ai_async st packets (some name) rands
        = query_ai_async st packets none rands) := by
  constructor
  · intro hname hfil
    have hemp : (st.active_providers.filter
        (fun p : Provider => p.name = name)).isEmpty = false := by
      simpa [List.isEmpty_iff] using hfil
    have hall : ∀ p ∈ st.active_providers.filter
        (fun p : Provider => p.name = name), p.name = name := by
      intro p hp
      have := (List.mem_filter.mp hp).2
      simpa using this
    constructor
    · unfold query_ai_async
      dsimp only
      rw [if_neg hname, hemp]
      simp only [Bool.false_eq_true, if_false]
      intro r hr hs
      exact query_provider_name _ packets rands name hall r hr hs
    · unfold query_ai_async
      dsimp only
      rw [if_neg hname, hemp]
      simp only [Bool.false_eq_true, if_false]
  · intro hfil
    have hemp : (st.active_providers.filter
        (fun p : Provider => p.name = name)).isEmpty = true := by
      simp [List.isEmpty_iff, hfil]
    unfold query_ai_async
    dsimp only
    by_cases hname : name = ""
    · rw [if_pos hname]
    · rw [if_neg hname, hemp]
      rfl

/-- Witness for `query_ai_async_provider_override`. -/
theorem query_ai_async_provider_override_witness :
    (("A" : String) ≠ "" ∧
      stQuad.active_providers.filter
        (fun p : Provider => p.name = "A") ≠ [] ∧
      ((∀ r ∈ (query_ai_async stQuad [] (some "A")
            (fun _ => zeroRand)).1.provider_responses,
          r.success = true → r.provider = some "A") ∧
        (query_ai_async stQuad [] (some "A")
            (fun _ => zeroRand)).2.active_providers
          = stQuad.active_providers)) ∧
    (stQuad.active_providers.filter
        (fun p : Provider => p.name = "Z") = [] ∧
      query_ai_async stQuad [] (some "Z") (fun _ => zeroRand)
        = query_ai_async stQuad [] none (fun _ => zeroRand)) :=
  ⟨⟨by decide, by decide,
    (query_ai_async_provider_override stQuad [] "A"
      (fun _ => zeroRand)).1 (by decide) (by decide)⟩,
   ⟨by decide,
    (query_ai_async_provider_override stQuad [] "Z"
      (fun _ => zeroRand)).2 (by decide)⟩⟩
